import Mathlib

/-!
Shallow embedding of the task-queue core of `src/backend/queue.js`
(`QueueManager`) and of the driving protocol of `src/backend/worker.js`
(`Worker.processNextTask`, `Worker.checkRetries`).

Modelling conventions:
- The JavaScript `Map` `this.tasks` (insertion-ordered, keyed by `task.id`)
  is a `List Task`; insertion appends, `Map.get` is `find?` on the id,
  in-place mutation of the found record is a `map` that replaces the unique
  entry with that id, `Map.delete` is a `filter`.
- Task ids (`task_${uuid}` strings) are opaque fresh `Nat`s; the ghost field
  `usedIds` records every id ever handed out, so that freshness of uuids
  ("an id is never reused") is a precondition of the creation step.
- JS numbers used as timestamps / progress are `Int`; the arithmetic in
  `calculateBackoff` (which involves `Math.random()` and division) is `Rat`
  with `Math.floor` as `Int.floor`; the random source is an explicit
  parameter `rand ∈ [0,1)`.
- `broadcast`/`sendToClient` deliveries are returned as an explicit ordered
  `List Event` (every connected client receives every broadcast, in order).
- `createTask` throwing `Queue full` is an `Except.error` result with the
  source's message; the state component is returned unchanged in that case.
-/

namespace TQV

/-- Task lifecycle states of `queue.js` (`'pending' | 'processing' |
'retrying' | 'completed' | 'failed'`). -/
inductive TaskState where
  | pending
  | processing
  | retrying
  | completed
  | failed
deriving DecidableEq, Repr

/-- The `task.error = { code, message }` record set by `failTask`. -/
structure Err where
  code : String
  message : String
deriving DecidableEq, Repr

/-- The task record built by `QueueManager.createTask`. -/
structure Task where
  id : Nat
  prompt : String
  state : TaskState
  createdAt : Int
  startedAt : Option Int
  completedAt : Option Int
  result : Option String
  error : Option Err
  retryCount : Nat
  maxRetries : Nat
  nextRetryAt : Option Int
  progress : Int
  estimatedWaitTime : Int
deriving DecidableEq, Repr

/-- `getStats()` payload. -/
structure Stats where
  pending : Nat
  processing : Nat
  retrying : Nat
  completed : Nat
  failed : Nat
  total : Nat
deriving DecidableEq, Repr

/-- The SSE events emitted by `QueueManager` (name → payload, as in the
source's `broadcast`/`sendToClient` calls). -/
inductive Event where
  | task_submitted (t : Task)
  | task_started (t : Task)
  | task_progress (id : Nat) (progress : Int)
  | task_completed (t : Task)
  | task_retry_scheduled (id : Nat) (retryCount maxRetries : Nat)
      (nextRetryAt : Int) (error : Err)
  | task_requeued (t : Task)
  | task_failed (t : Task)
  | task_cancelled (id : Nat)
  | queue_stats (st : Stats)
  | queue_snapshot (ts : List Task)
deriving DecidableEq, Repr

/-- `this.MAX_CONCURRENT = 5`. -/
def MAX_CONCURRENT : Nat := 5

/-- `this.MAX_QUEUE_SIZE = 100`. -/
def MAX_QUEUE_SIZE : Nat := 100

/-- `this.BASE_RETRY_DELAY = 2000`. -/
def BASE_RETRY_DELAY : Rat := 2000

/-- `this.MAX_RETRY_DELAY = 60000`. -/
def MAX_RETRY_DELAY : Rat := 60000

/-- `this.MAX_RETRIES = 5`. -/
def MAX_RETRIES : Nat := 5

/-- `AVERAGE_TASK_TIME = 30000` (used by both wait-time estimators). -/
def AVERAGE_TASK_TIME : Int := 30000

/-- The mutable state of a `QueueManager` instance: the task map (as an
insertion-ordered list), the `currentlyProcessing` slot counter, and the
ghost set of all ids ever generated (uuid freshness). -/
structure QMState where
  tasks : List Task
  currentlyProcessing : Int
  usedIds : List Nat
deriving DecidableEq, Repr

/-- The constructor state: empty map, zero slots in use. -/
def initialState : QMState :=
  { tasks := [], currentlyProcessing := 0, usedIds := [] }

/-- `this.tasks.get(taskId)` — the unique entry with the given id. -/
def findTask (s : QMState) (id : Nat) : Option Task :=
  s.tasks.find? (fun t => t.id == id)

/-- `getTask(taskId)` — `return this.tasks.get(taskId)`. -/
def getTask (s : QMState) (id : Nat) : Option Task :=
  findTask s id

/-- Count of stored tasks in a given state. -/
def countState (l : List Task) (st : TaskState) : Nat :=
  l.countP (fun t => t.state == st)

/-- `getStats()` — per-state counts plus `total = this.tasks.size`. -/
def getStats (s : QMState) : Stats :=
  { pending := countState s.tasks .pending
    processing := countState s.tasks .processing
    retrying := countState s.tasks .retrying
    completed := countState s.tasks .completed
    failed := countState s.tasks .failed
    total := s.tasks.length }

/-- `calculateEstimatedWait()` — `(pending + ceil(processing / MAX_CONCURRENT))
* AVERAGE_TASK_TIME`; `Math.ceil` on a nonneg quotient is `Nat` ceiling
division. -/
def calculateEstimatedWait (s : QMState) : Int :=
  let pendingCount := countState s.tasks .pending
  let processingCount := countState s.tasks .processing
  let effectiveQueueLength :=
    pendingCount + (processingCount + (MAX_CONCURRENT - 1)) / MAX_CONCURRENT
  (effectiveQueueLength : Int) * AVERAGE_TASK_TIME

/-- Stable ascending insertion by `createdAt`, modelling the stable JS
`Array.sort((a, b) => a.createdAt - b.createdAt)`. -/
def insertByCreatedAtAsc (t : Task) : List Task → List Task
  | [] => [t]
  | u :: l =>
    if u.createdAt < t.createdAt then u :: insertByCreatedAtAsc t l
    else t :: u :: l

/-- Stable sort ascending by `createdAt`. -/
def sortByCreatedAtAsc (l : List Task) : List Task :=
  l.foldr insertByCreatedAtAsc []

/-- Stable descending insertion by `createdAt`, modelling the stable JS
`Array.sort((a, b) => b.createdAt - a.createdAt)`. -/
def insertByCreatedAtDesc (t : Task) : List Task → List Task
  | [] => [t]
  | u :: l =>
    if t.createdAt < u.createdAt then u :: insertByCreatedAtDesc t l
    else t :: u :: l

/-- Stable sort descending by `createdAt`. -/
def sortByCreatedAtDesc (l : List Task) : List Task :=
  l.foldr insertByCreatedAtDesc []

/-- `getAllTasks()` — `[...this.tasks.values()].sort((a, b) => b.createdAt -
a.createdAt)`. -/
def getAllTasks (s : QMState) : List Task :=
  sortByCreatedAtDesc s.tasks

/-- The per-task assignment of `updateEstimatedWaitTimes()`: a pending task
at `position` in the sorted pending list gets `estimatedWaitTime =
position * AVERAGE_TASK_TIME`; a task not in that list is untouched. -/
def assignWaitByPosition (sortedTasks : List Task) (t : Task) : Task :=
  match sortedTasks.findIdx? (fun u => u.id == t.id) with
  | some position =>
    { t with estimatedWaitTime := (position : Int) * AVERAGE_TASK_TIME }
  | none => t

/-- `updateEstimatedWaitTimes()` — sorts the pending tasks by `createdAt`
(stable) and assigns `estimatedWaitTime = position * AVERAGE_TASK_TIME` by
FIFO position; non-pending tasks are untouched. -/
def updateEstimatedWaitTimes (s : QMState) : QMState :=
  let sortedTasks := sortByCreatedAtAsc
    (s.tasks.filter (fun t => t.state == TaskState.pending))
  { s with tasks := s.tasks.map (assignWaitByPosition sortedTasks) }

/-- `createTask(prompt)` — throws (here: `Except.error`, state unchanged)
when `this.tasks.size >= this.MAX_QUEUE_SIZE`; otherwise stores a fresh
pending task and broadcasts `task_submitted` plus stats.  The fresh uuid is
the explicit parameter `id`. -/
def createTask (s : QMState) (id : Nat) (prompt : String) (now : Int) :
    QMState × List Event × Except String Task :=
  if MAX_QUEUE_SIZE ≤ s.tasks.length then
    (s, [], .error "Queue full - please wait for some tasks to complete")
  else
    let task : Task :=
      { id := id
        prompt := prompt.trim
        state := .pending
        createdAt := now
        startedAt := none
        completedAt := none
        result := none
        error := none
        retryCount := 0
        maxRetries := MAX_RETRIES
        nextRetryAt := none
        progress := 0
        estimatedWaitTime := calculateEstimatedWait s }
    let s' : QMState :=
      { s with tasks := s.tasks ++ [task], usedIds := id :: s.usedIds }
    (s', [.task_submitted task, .queue_stats (getStats s')], .ok task)

/-- The loop body of `getNextPendingTask()`: keep the pending task with
strictly smaller `createdAt` (`task.createdAt < oldestPending.createdAt`),
so an earlier-iterated task wins ties. -/
def scanOldest (oldestPending : Option Task) (task : Task) : Option Task :=
  if task.state = TaskState.pending then
    match oldestPending with
    | none => some task
    | some oldest =>
      if task.createdAt < oldest.createdAt then some task else some oldest
  else oldestPending

/-- `getNextPendingTask()` — linear scan in insertion order keeping the
strictly oldest pending task seen so far. -/
def getNextPendingTask (s : QMState) : Option Task :=
  s.tasks.foldl scanOldest none

/-- `hasCapacity()` — `this.currentlyProcessing < this.MAX_CONCURRENT`. -/
def hasCapacity (s : QMState) : Bool :=
  s.currentlyProcessing < (MAX_CONCURRENT : Int)

/-- Replace the entry with key `id` by `t'` (in-place mutation of the record
held by the JS `Map`). -/
def replaceById (l : List Task) (id : Nat) (t' : Task) : List Task :=
  l.map (fun u => if u.id = id then t' else u)

/-- `startProcessing(taskId)` — marks the task processing, stamps
`startedAt`, resets `progress`, increments the slot counter, broadcasts
`task_started` and stats.  `null` (here `none`) when the id is unknown. -/
def startProcessing (s : QMState) (id : Nat) (now : Int) :
    QMState × List Event × Option Task :=
  match findTask s id with
  | none => (s, [], none)
  | some task =>
    let task' := { task with
      state := TaskState.processing, startedAt := some now, progress := 0 }
    let s' : QMState :=
      { s with tasks := replaceById s.tasks id task'
               currentlyProcessing := s.currentlyProcessing + 1 }
    (s', [.task_started task', .queue_stats (getStats s')], some task')

/-- `updateProgress(taskId, progress)` — clamps to `[0, 100]` with
`Math.min(100, Math.max(0, progress))` and broadcasts `task_progress`. -/
def updateProgress (s : QMState) (id : Nat) (progress : Int) :
    QMState × List Event :=
  match findTask s id with
  | none => (s, [])
  | some task =>
    let task' := { task with progress := min 100 (max 0 progress) }
    let s' : QMState := { s with tasks := replaceById s.tasks id task' }
    (s', [.task_progress id task'.progress])

/-- `completeTask(taskId, result)` — marks completed, stamps `completedAt`,
stores the result, sets `progress = 100`, decrements the slot counter,
broadcasts `task_completed` and stats, then `updateEstimatedWaitTimes()`. -/
def completeTask (s : QMState) (id : Nat) (result : String) (now : Int) :
    QMState × List Event × Option Task :=
  match findTask s id with
  | none => (s, [], none)
  | some task =>
    let task' := { task with
      state := TaskState.completed
      completedAt := some now
      result := some result
      progress := 100 }
    let s' : QMState :=
      { s with tasks := replaceById s.tasks id task'
               currentlyProcessing := s.currentlyProcessing - 1 }
    (updateEstimatedWaitTimes s',
     [.task_completed task', .queue_stats (getStats s')], some task')

/-- `calculateBackoff(retryCount)` — exponential delay capped at
`MAX_RETRY_DELAY`, plus jitter `cappedDelay * 0.25 * (Math.random() - 0.5)`,
then `Math.floor`.  `rand` is the value of `Math.random()`. -/
def calculateBackoff (rand : Rat) (retryCount : Nat) : Int :=
  let exponentialDelay := BASE_RETRY_DELAY * (2 : Rat) ^ ((retryCount : Int) - 1)
  let cappedDelay := min exponentialDelay MAX_RETRY_DELAY
  let jitter := cappedDelay * (1/4 : Rat) * (rand - 1/2)
  ⌊cappedDelay + jitter⌋

/-- `error.code || 'UNKNOWN'` / `error.message || 'Unknown error occurred'`
(the empty string is falsy in JS). -/
def classifyErr (e : Err) : Err :=
  { code := if e.code = "" then "UNKNOWN" else e.code
    message := if e.message = "" then "Unknown error occurred" else e.message }

/-- `failTask(taskId, error, isRetryable)` — records the classified error,
decrements the slot counter, then either schedules a retry (when
`isRetryable && retryCount < maxRetries`: increments `retryCount`, sets
`nextRetryAt = now + backoff`, state `retrying`, broadcasts
`task_retry_scheduled`) or marks the task permanently failed (state
`failed`, stamps `completedAt`, broadcasts `task_failed`); stats follow. -/
def failTask (s : QMState) (id : Nat) (error : Err) (isRetryable : Bool)
    (now : Int) (rand : Rat) : QMState × List Event × Option Task :=
  match findTask s id with
  | none => (s, [], none)
  | some task =>
    let task₁ := { task with error := some (classifyErr error) }
    let shouldRetry := isRetryable && decide (task.retryCount < task.maxRetries)
    if shouldRetry then
      let task' := { task₁ with
        retryCount := task₁.retryCount + 1
        nextRetryAt := some (now + calculateBackoff rand (task₁.retryCount + 1))
        state := TaskState.retrying }
      let s' : QMState :=
        { s with tasks := replaceById s.tasks id task'
                 currentlyProcessing := s.currentlyProcessing - 1 }
      (s',
       [.task_retry_scheduled id task'.retryCount task'.maxRetries
          (now + calculateBackoff rand (task₁.retryCount + 1))
          (classifyErr error),
        .queue_stats (getStats s')], some task')
    else
      let task' := { task₁ with
        state := TaskState.failed, completedAt := some now }
      let s' : QMState :=
        { s with tasks := replaceById s.tasks id task'
                 currentlyProcessing := s.currentlyProcessing - 1 }
      (s', [.task_failed task', .queue_stats (getStats s')], some task')

/-- `getTasksReadyForRetry()` — tasks with `state === 'retrying' &&
task.nextRetryAt && now >= task.nextRetryAt` (note `nextRetryAt = 0` is
falsy in JS). -/
def getTasksReadyForRetry (s : QMState) (now : Int) : List Task :=
  s.tasks.filter (fun t =>
    t.state == TaskState.retrying &&
      match t.nextRetryAt with
      | none => false
      | some r => !(r == 0) && decide (r ≤ now))

/-- `requeueForRetry(taskId)` — back to `pending`, clears `nextRetryAt` and
`error`, broadcasts `task_requeued` (no stats broadcast in the source). -/
def requeueForRetry (s : QMState) (id : Nat) :
    QMState × List Event × Option Task :=
  match findTask s id with
  | none => (s, [], none)
  | some task =>
    let task' := { task with
      state := TaskState.pending, nextRetryAt := none, error := none }
    let s' : QMState := { s with tasks := replaceById s.tasks id task' }
    (s', [.task_requeued task'], some task')

/-- `cancelTask(taskId)` — `false` when the id is unknown or the task is
`processing`; otherwise deletes the record, broadcasts `task_cancelled`
with the bare id and stats, and returns `true`. -/
def cancelTask (s : QMState) (id : Nat) : QMState × List Event × Bool :=
  match findTask s id with
  | none => (s, [], false)
  | some task =>
    if task.state = TaskState.processing then (s, [], false)
    else
      let s' : QMState :=
        { s with tasks := s.tasks.filter (fun u => !(u.id == id)) }
      (s', [.task_cancelled id, .queue_stats (getStats s')], true)

/-- `addSSEClient(res)` — the two events written synchronously to the newly
registered client, in order: the snapshot (`getAllTasks()`), then stats. -/
def addSSEClient (s : QMState) : List Event :=
  [.queue_snapshot (getAllTasks s), .queue_stats (getStats s)]

/-- Folding `createTask` over a list of submissions (id, prompt, time),
keeping the state unchanged on a `Queue full` rejection — the behaviour of
repeated `POST /tasks` calls. -/
def runCreates (s : QMState) (inputs : List (Nat × String × Int)) : QMState :=
  inputs.foldl (fun s i => (createTask s i.1 i.2.1 i.2.2).1) s

/-!
### The Broadcast Hub loop (`sendToClient` / `broadcast`)

An SSE client is modelled by whether its `res.write` raises (e.g. a write
to a connection that was torn down).  The source's `sendToClient` performs
the two writes with no error handling, and `broadcast` iterates the client
set with no error handling, so a raised write error aborts the iteration
and propagates to the caller of `broadcast`.
-/

/-- One registered SSE connection; `writeFails` models `res.write` raising. -/
structure SSEClient where
  cid : Nat
  writeFails : Bool
deriving DecidableEq, Repr

/-- `sendToClient(res, event, data)` — two raw `res.write` calls, no
try/catch: propagates the write error if the connection raises. -/
def sendToClient (c : SSEClient) : Except String Unit :=
  if c.writeFails then .error "write to closed connection" else .ok ()

/-- `broadcast(event, data)` — `for (const client of this.sseClients)
this.sendToClient(client, ...)`, no try/catch: the first raising client
aborts the loop and the error propagates. -/
def broadcast : List SSEClient → Except String Unit
  | [] => .ok ()
  | c :: rest =>
    match sendToClient c with
    | .error e => .error e
    | .ok _ => broadcast rest

/-- The clients a single `broadcast` call actually writes the event to:
everyone before the first raising client. -/
def deliveredBeforeError : List SSEClient → List Nat
  | [] => []
  | c :: rest =>
    if c.writeFails then [] else c.cid :: deliveredBeforeError rest

/-!
### The operational step relation

One constructor per externally triggered operation, with exactly the
guards the drivers establish:
- `create`: `POST /tasks` (any prompt, fresh uuid);
- `dispatch`: one tick of `Worker.processNextTask` that gets past both
  early returns — `hasCapacity()` and a pending task — and calls
  `startProcessing` (these run synchronously in one event-loop turn);
- `complete` / `fail`: settlement of a dispatched execution.  The worker
  settles only a task it started, and a `processing` task can change state
  through no other operation (cancel refuses it, requeue touches only
  `retrying`, dispatch only `pending`), so at settlement the task is still
  `processing` — that protocol fact is the guard;
- `requeue`: one iteration of `Worker.checkRetries` over
  `getTasksReadyForRetry()`;
- `cancel`: `DELETE /tasks/:id` (unguarded — `cancelTask` checks);
- `progress`: the execution collaborator's progress callback (unguarded —
  `updateProgress` checks);
- `subscribe`: `GET /queue/stream` registering an observer (task state
  unchanged).
-/
inductive Step : QMState → QMState → List Event → Prop where
  | create {s : QMState} (id : Nat) (prompt : String) (now : Int)
      (hfresh : id ∉ s.usedIds) :
      Step s (createTask s id prompt now).1 (createTask s id prompt now).2.1
  | dispatch {s : QMState} (now : Int) (t : Task)
      (hcap : hasCapacity s = true)
      (hnext : getNextPendingTask s = some t) :
      Step s (startProcessing s t.id now).1 (startProcessing s t.id now).2.1
  | complete {s : QMState} (id : Nat) (result : String) (now : Int) (t : Task)
      (hfind : findTask s id = some t)
      (hproc : t.state = TaskState.processing) :
      Step s (completeTask s id result now).1 (completeTask s id result now).2.1
  | fail {s : QMState} (id : Nat) (error : Err) (isRetryable : Bool)
      (now : Int) (rand : Rat) (t : Task)
      (hfind : findTask s id = some t)
      (hproc : t.state = TaskState.processing)
      (h0 : 0 ≤ rand) (h1 : rand < 1) :
      Step s (failTask s id error isRetryable now rand).1
        (failTask s id error isRetryable now rand).2.1
  | requeue {s : QMState} (now : Int) (t : Task)
      (hdue : t ∈ getTasksReadyForRetry s now) :
      Step s (requeueForRetry s t.id).1 (requeueForRetry s t.id).2.1
  | cancel {s : QMState} (id : Nat) :
      Step s (cancelTask s id).1 (cancelTask s id).2.1
  | progress {s : QMState} (id : Nat) (p : Int) :
      Step s (updateProgress s id p).1 (updateProgress s id p).2
  | subscribe {s : QMState} :
      Step s s (addSSEClient s)

/-- A finite run of the system, collecting every broadcast event in
emission order. -/
inductive Trace : QMState → QMState → List Event → Prop where
  | refl (s : QMState) : Trace s s []
  | tail {s₁ s₂ s₃ : QMState} {evs evs' : List Event}
      (htr : Trace s₁ s₂ evs) (hst : Step s₂ s₃ evs') :
      Trace s₁ s₃ (evs ++ evs')

/-- A queue state reachable from the freshly constructed manager. -/
def Reachable (s : QMState) : Prop :=
  ∃ evs, Trace initialState s evs

/-- Does an event's payload reference the given task id? -/
def mentionsId (e : Event) (id : Nat) : Bool :=
  match e with
  | .task_submitted t => t.id == id
  | .task_started t => t.id == id
  | .task_progress j _ => j == id
  | .task_completed t => t.id == id
  | .task_retry_scheduled j _ _ _ _ => j == id
  | .task_requeued t => t.id == id
  | .task_failed t => t.id == id
  | .task_cancelled j => j == id
  | .queue_stats _ => false
  | .queue_snapshot ts => ts.any (fun t => t.id == id)

/-!
### List-level lemmas about the task map operations
-/

theorem mem_replaceById {l : List Task} {id : Nat} {t' u : Task}
    (hu : u ∈ replaceById l id t') : u = t' ∨ u ∈ l := by
  rcases List.mem_map.mp hu with ⟨v, hv, hvu⟩
  by_cases h : v.id = id
  · simp [h] at hvu; exact Or.inl hvu.symm
  · simp [h] at hvu; exact Or.inr (hvu ▸ hv)

theorem replaceById_of_not_mem {l : List Task} {id : Nat} {t' : Task}
    (h : ∀ u ∈ l, u.id ≠ id) : replaceById l id t' = l := by
  unfold replaceById
  conv_rhs => rw [← List.map_id l]
  exact List.map_congr_left fun u hu => by simp [h u hu]

theorem ids_replaceById {l : List Task} {id : Nat} {t' : Task}
    (hi : t'.id = id) :
    (replaceById l id t').map Task.id = l.map Task.id := by
  unfold replaceById
  rw [List.map_map]
  refine List.map_congr_left fun u _ => ?_
  by_cases h : u.id = id <;> simp [h, hi]

theorem length_replaceById {l : List Task} {id : Nat} {t' : Task} :
    (replaceById l id t').length = l.length :=
  List.length_map l _

theorem countP_replaceById (p : Task → Bool) :
    ∀ {l : List Task} {id : Nat} {t t' : Task},
      (l.map Task.id).Nodup → t ∈ l → t.id = id →
      (replaceById l id t').countP p + (if p t then 1 else 0)
        = l.countP p + (if p t' then 1 else 0)
  | [], _, _, _, _, ht, _ => absurd ht (List.not_mem_nil _)
  | v :: l, id, t, t', hn, ht, hi => by
    simp only [List.map_cons, List.nodup_cons] at hn
    by_cases hv : v.id = id
    · have htv : t = v := by
        rcases List.mem_cons.mp ht with h | h
        · exact h
        · exfalso
          apply hn.1
          rw [hv, ← hi]
          exact List.mem_map_of_mem Task.id h
      have htl : replaceById l id t' = l := by
        refine replaceById_of_not_mem fun u hu hcontra => ?_
        apply hn.1
        rw [hv, ← hcontra]
        exact List.mem_map_of_mem Task.id hu
      simp only [replaceById, List.map_cons, if_pos hv]
      rw [show l.map (fun u => if u.id = id then t' else u) = l from htl]
      simp only [List.countP_cons, htv]
      omega
    · have htne : t ≠ v := fun h => hv (h ▸ hi)
      have htl : t ∈ l := (List.mem_cons.mp ht).resolve_left htne
      have ih := @countP_replaceById p l id t t' hn.2 htl hi
      simp only [replaceById, List.map_cons, if_neg hv] at ih ⊢
      simp only [List.countP_cons]
      omega

theorem countP_eraseId (p : Task → Bool) :
    ∀ {l : List Task} {id : Nat} {t : Task},
      (l.map Task.id).Nodup → t ∈ l → t.id = id →
      (l.filter (fun u => !(u.id == id))).countP p + (if p t then 1 else 0)
        = l.countP p
  | [], _, _, _, ht, _ => absurd ht (List.not_mem_nil _)
  | v :: l, id, t, hn, ht, hi => by
    simp only [List.map_cons, List.nodup_cons] at hn
    by_cases hv : v.id = id
    · have htv : t = v := by
        rcases List.mem_cons.mp ht with h | h
        · exact h
        · exfalso
          apply hn.1
          rw [hv, ← hi]
          exact List.mem_map_of_mem Task.id h
      have htl : l.filter (fun u => !(u.id == id)) = l := by
        refine List.filter_eq_self.mpr fun u hu => ?_
        simp only [Bool.not_eq_true', beq_eq_false_iff_ne]
        intro hcontra
        apply hn.1
        rw [hv, ← hcontra]
        exact List.mem_map_of_mem Task.id hu
      rw [List.filter_cons_of_neg (by simp [hv]), htl, htv,
        List.countP_cons]
    · have htne : t ≠ v := fun h => hv (h ▸ hi)
      have htl : t ∈ l := (List.mem_cons.mp ht).resolve_left htne
      have ih := @countP_eraseId p l id t hn.2 htl hi
      rw [List.filter_cons_of_pos (by simp [hv]), List.countP_cons,
        List.countP_cons]
      omega

theorem findTask_mem {s : QMState} {id : Nat} {t : Task}
    (h : findTask s id = some t) : t ∈ s.tasks ∧ t.id = id := by
  refine ⟨List.mem_of_find?_eq_some h, ?_⟩
  have := List.find?_some h
  simpa using this

theorem find?_id_of_mem :
    ∀ {l : List Task}, (l.map Task.id).Nodup → ∀ {t : Task}, t ∈ l →
      l.find? (fun u => u.id == t.id) = some t
  | [], _, _, ht => absurd ht (List.not_mem_nil _)
  | v :: l, hn, t, ht => by
    simp only [List.map_cons, List.nodup_cons] at hn
    by_cases hv : v = t
    · subst hv
      exact List.find?_cons_of_pos _ (by simp)
    · have htl : t ∈ l := (List.mem_cons.mp ht).resolve_left fun h => hv h.symm
      have hne : v.id ≠ t.id := by
        intro h
        apply hn.1
        rw [h]
        exact List.mem_map_of_mem Task.id htl
      rw [List.find?_cons_of_neg _ (by simp [hne])]
      exact find?_id_of_mem hn.2 htl

theorem findTask_of_mem {s : QMState} {t : Task}
    (hn : (s.tasks.map Task.id).Nodup) (ht : t ∈ s.tasks) :
    findTask s t.id = some t :=
  find?_id_of_mem hn ht

theorem find?_replaceById {id : Nat} {t' : Task} (hi : t'.id = id) :
    ∀ l : List Task,
      (replaceById l id t').find? (fun u => u.id == id)
        = (l.find? (fun u => u.id == id)).map (fun _ => t')
  | [] => rfl
  | v :: l => by
    by_cases hv : v.id = id
    · simp only [replaceById, List.map_cons, if_pos hv]
      rw [List.find?_cons_of_pos _ (by simp [hi]),
        List.find?_cons_of_pos _ (by simp [hv])]
      rfl
    · simp only [replaceById, List.map_cons, if_neg hv]
      rw [List.find?_cons_of_neg _ (by simp [hv]),
        List.find?_cons_of_neg _ (by simp [hv])]
      exact find?_replaceById hi l

theorem findTask_replace {s : QMState} {id : Nat} {t' : Task}
    (hi : t'.id = id) (f : QMState → QMState)
    (hf : (f s).tasks = replaceById s.tasks id t') :
    findTask (f s) id = (findTask s id).map (fun _ => t') := by
  unfold findTask
  rw [hf]
  exact find?_replaceById hi s.tasks

theorem nodup_ids_filter {l : List Task} (q : Task → Bool)
    (hn : (l.map Task.id).Nodup) : ((l.filter q).map Task.id).Nodup :=
  hn.sublist ((List.filter_sublist l).map Task.id)

theorem not_mem_eraseId {l : List Task} {id : Nat} :
    ∀ u ∈ l.filter (fun u => !(u.id == id)), u.id ≠ id := by
  intro u hu
  have := (List.mem_filter.mp hu).2
  simpa using this

/-!
### Lemmas about `assignWaitByPosition` / `updateEstimatedWaitTimes`
-/

theorem assignWait_eq (st : List Task) (t : Task) :
    ∃ w, assignWaitByPosition st t = { t with estimatedWaitTime := w } := by
  unfold assignWaitByPosition
  cases h : st.findIdx? (fun u => u.id == t.id) with
  | none => exact ⟨t.estimatedWaitTime, rfl⟩
  | some position => exact ⟨(position : Int) * AVERAGE_TASK_TIME, rfl⟩

theorem uewt_tasks (s : QMState) :
    (updateEstimatedWaitTimes s).tasks
      = s.tasks.map (assignWaitByPosition (sortByCreatedAtAsc
          (s.tasks.filter (fun t => t.state == TaskState.pending)))) := rfl

theorem uewt_counter (s : QMState) :
    (updateEstimatedWaitTimes s).currentlyProcessing
      = s.currentlyProcessing := rfl

theorem uewt_usedIds (s : QMState) :
    (updateEstimatedWaitTimes s).usedIds = s.usedIds := rfl

theorem assignWait_id (st : List Task) (t : Task) :
    (assignWaitByPosition st t).id = t.id := by
  rcases assignWait_eq st t with ⟨w, hw⟩; rw [hw]

theorem assignWait_state (st : List Task) (t : Task) :
    (assignWaitByPosition st t).state = t.state := by
  rcases assignWait_eq st t with ⟨w, hw⟩; rw [hw]

theorem assignWait_retryCount (st : List Task) (t : Task) :
    (assignWaitByPosition st t).retryCount = t.retryCount := by
  rcases assignWait_eq st t with ⟨w, hw⟩; rw [hw]

theorem assignWait_maxRetries (st : List Task) (t : Task) :
    (assignWaitByPosition st t).maxRetries = t.maxRetries := by
  rcases assignWait_eq st t with ⟨w, hw⟩; rw [hw]

theorem assignWait_progress (st : List Task) (t : Task) :
    (assignWaitByPosition st t).progress = t.progress := by
  rcases assignWait_eq st t with ⟨w, hw⟩; rw [hw]

theorem uewt_ids (s : QMState) :
    (updateEstimatedWaitTimes s).tasks.map Task.id = s.tasks.map Task.id := by
  rw [uewt_tasks, List.map_map]
  exact List.map_congr_left fun u _ => assignWait_id _ u

theorem uewt_countState (s : QMState) (st : TaskState) :
    countState (updateEstimatedWaitTimes s).tasks st
      = countState s.tasks st := by
  rw [countState, uewt_tasks, List.countP_map, countState]
  exact List.countP_congr fun u _ => by
    simp [Function.comp, assignWait_state]

theorem uewt_mem {s : QMState} {u : Task}
    (hu : u ∈ (updateEstimatedWaitTimes s).tasks) :
    ∃ v ∈ s.tasks, ∃ w, u = { v with estimatedWaitTime := w } := by
  rw [uewt_tasks] at hu
  rcases List.mem_map.mp hu with ⟨v, hv, hvu⟩
  rcases assignWait_eq _ v with ⟨w, hw⟩
  exact ⟨v, hv, w, by rw [← hvu, hw]⟩


/-!
### Lemmas about the stable `createdAt` sorts
-/

theorem perm_insertByCreatedAtDesc (t : Task) :
    ∀ l : List Task, List.Perm (insertByCreatedAtDesc t l) (t :: l)
  | [] => List.Perm.refl _
  | u :: l => by
    unfold insertByCreatedAtDesc
    by_cases h : t.createdAt < u.createdAt
    · rw [if_pos h]
      exact ((perm_insertByCreatedAtDesc t l).cons u).trans
        (List.Perm.swap t u l)
    · rw [if_neg h]

theorem perm_sortByCreatedAtDesc :
    ∀ l : List Task, List.Perm (sortByCreatedAtDesc l) l
  | [] => List.Perm.refl _
  | t :: l => by
    show List.Perm (insertByCreatedAtDesc t (sortByCreatedAtDesc l)) (t :: l)
    exact (perm_insertByCreatedAtDesc t _).trans
      ((perm_sortByCreatedAtDesc l).cons t)

theorem mem_sortByCreatedAtDesc {l : List Task} {u : Task}
    (hu : u ∈ sortByCreatedAtDesc l) : u ∈ l :=
  (perm_sortByCreatedAtDesc l).mem_iff.mp hu

theorem mem_insertByCreatedAtDesc {t u : Task} {l : List Task}
    (hu : u ∈ insertByCreatedAtDesc t l) : u = t ∨ u ∈ l := by
  have := (perm_insertByCreatedAtDesc t l).mem_iff.mp hu
  simpa using this

theorem sorted_insertByCreatedAtDesc {t : Task} :
    ∀ {l : List Task},
      l.Pairwise (fun a b => b.createdAt ≤ a.createdAt) →
      (insertByCreatedAtDesc t l).Pairwise
        (fun a b => b.createdAt ≤ a.createdAt)
  | [], _ => List.pairwise_singleton _ t
  | u :: l, hp => by
    rcases List.pairwise_cons.mp hp with ⟨hu, hl⟩
    unfold insertByCreatedAtDesc
    by_cases h : t.createdAt < u.createdAt
    · rw [if_pos h]
      refine List.pairwise_cons.mpr ⟨?_, sorted_insertByCreatedAtDesc hl⟩
      intro v hv
      rcases mem_insertByCreatedAtDesc hv with rfl | hvl
      · exact le_of_lt h
      · exact hu v hvl
    · rw [if_neg h]
      refine List.pairwise_cons.mpr ⟨?_, hp⟩
      intro v hv
      rcases List.mem_cons.mp hv with rfl | hvl
      · exact le_of_not_lt h
      · exact le_trans (hu v hvl) (le_of_not_lt h)

theorem sorted_sortByCreatedAtDesc :
    ∀ l : List Task,
      (sortByCreatedAtDesc l).Pairwise (fun a b => b.createdAt ≤ a.createdAt)
  | [] => List.Pairwise.nil
  | _ :: l =>
    sorted_insertByCreatedAtDesc (sorted_sortByCreatedAtDesc l)

/-!
### Characterisation of `getNextPendingTask`

`bpAux` is the straightforward recursion computing what the source's
left-to-right scan computes: the earliest-inserted pending task of
minimal `createdAt` (strict comparison, so an earlier task wins ties).
`bpMerge` merges the best-so-far accumulator (which wins ties) with the
best of the remaining list.
-/

def bpMerge : Option Task → Option Task → Option Task
  | none, r => r
  | some b, none => some b
  | some b, some r => if r.createdAt < b.createdAt then some r else some b

def bpAux : List Task → Option Task
  | [] => none
  | t :: l =>
    if t.state = TaskState.pending then
      match bpAux l with
      | none => some t
      | some b => if b.createdAt < t.createdAt then some b else some t
    else bpAux l

theorem scanOldest_none (t : Task) :
    scanOldest none t
      = if t.state = TaskState.pending then some t else none := rfl

theorem scanOldest_some (a t : Task) :
    scanOldest (some a) t
      = if t.state = TaskState.pending then
          (if t.createdAt < a.createdAt then some t else some a)
        else some a := rfl

theorem bpAux_cons_pending {t : Task} {l : List Task}
    (hp : t.state = TaskState.pending) :
    bpAux (t :: l)
      = match bpAux l with
        | none => some t
        | some b => if b.createdAt < t.createdAt then some b else some t := by
  rw [bpAux, if_pos hp]

theorem bpAux_cons_not_pending {t : Task} {l : List Task}
    (hp : ¬t.state = TaskState.pending) :
    bpAux (t :: l) = bpAux l := by
  rw [bpAux, if_neg hp]

theorem bpAux_cons_pending_none {t : Task} {l : List Task}
    (hp : t.state = TaskState.pending) (hb : bpAux l = none) :
    bpAux (t :: l) = some t := by
  rw [bpAux_cons_pending hp, hb]

theorem bpAux_cons_pending_some {t b : Task} {l : List Task}
    (hp : t.state = TaskState.pending) (hb : bpAux l = some b) :
    bpAux (t :: l)
      = if b.createdAt < t.createdAt then some b else some t := by
  rw [bpAux_cons_pending hp, hb]

theorem foldl_scanOldest :
    ∀ (l : List Task) (acc : Option Task),
      l.foldl scanOldest acc = bpMerge acc (bpAux l)
  | [], acc => by cases acc <;> rfl
  | t :: l, acc => by
    rw [List.foldl_cons, foldl_scanOldest l]
    by_cases hp : t.state = TaskState.pending
    · cases hb : bpAux l with
      | none =>
        rw [bpAux_cons_pending_none hp hb]
        cases acc with
        | none =>
          rw [scanOldest_none, if_pos hp]
          rfl
        | some a =>
          rw [scanOldest_some, if_pos hp]
          by_cases h1 : t.createdAt < a.createdAt <;>
            simp [bpMerge, h1]
      | some b =>
        rw [bpAux_cons_pending_some hp hb]
        cases acc with
        | none =>
          rw [scanOldest_none, if_pos hp]
          by_cases h2 : b.createdAt < t.createdAt <;>
            simp [bpMerge, h2]
        | some a =>
          rw [scanOldest_some, if_pos hp]
          by_cases h1 : t.createdAt < a.createdAt
          · rw [if_pos h1]
            by_cases h2 : b.createdAt < t.createdAt
            · have h3 : b.createdAt < a.createdAt := lt_trans h2 h1
              simp [bpMerge, h2, h3]
            · simp [bpMerge, h1, h2]
          · rw [if_neg h1]
            by_cases h2 : b.createdAt < t.createdAt
            · simp [bpMerge, h2]
            · have h3 : ¬b.createdAt < a.createdAt := by
                intro h
                exact h1 (lt_of_le_of_lt (le_of_not_lt h2) h)
              simp [bpMerge, h1, h2, h3]
    · rw [bpAux_cons_not_pending hp]
      have hacc : scanOldest acc t = acc := by
        cases acc <;> simp [scanOldest, hp]
      rw [hacc]

theorem getNextPendingTask_eq_bpAux (s : QMState) :
    getNextPendingTask s = bpAux s.tasks := by
  unfold getNextPendingTask
  rw [foldl_scanOldest]
  cases bpAux s.tasks <;> rfl

theorem bpAux_eq_none :
    ∀ {l : List Task}, bpAux l = none ↔ ∀ t ∈ l, t.state ≠ TaskState.pending
  | [] => by simp [bpAux]
  | t :: l => by
    by_cases hp : t.state = TaskState.pending
    · constructor
      · intro h
        exfalso
        cases hb : bpAux l with
        | none =>
          rw [bpAux_cons_pending_none hp hb] at h
          cases h
        | some b =>
          rw [bpAux_cons_pending_some hp hb] at h
          by_cases h2 : b.createdAt < t.createdAt
          · rw [if_pos h2] at h; cases h
          · rw [if_neg h2] at h; cases h
      · intro h
        exact absurd hp (h t (List.mem_cons_self t l))
    · rw [bpAux_cons_not_pending hp, @bpAux_eq_none l]
      constructor
      · intro h u hu
        rcases List.mem_cons.mp hu with rfl | hul
        · exact hp
        · exact h u hul
      · intro h u hu
        exact h u (List.mem_cons_of_mem t hu)

theorem bpAux_mem :
    ∀ {l : List Task} {t : Task}, bpAux l = some t →
      t ∈ l ∧ t.state = TaskState.pending
  | [], t, h => by simp [bpAux] at h
  | v :: l, t, h => by
    by_cases hp : v.state = TaskState.pending
    · cases hb : bpAux l with
      | none =>
        rw [bpAux_cons_pending_none hp hb] at h
        injection h with h
        subst h
        exact ⟨List.mem_cons_self _ _, hp⟩
      | some b =>
        rw [bpAux_cons_pending_some hp hb] at h
        rcases bpAux_mem hb with ⟨hbm, hbp⟩
        by_cases h2 : b.createdAt < v.createdAt
        · rw [if_pos h2] at h
          injection h with h
          subst h
          exact ⟨List.mem_cons_of_mem v hbm, hbp⟩
        · rw [if_neg h2] at h
          injection h with h
          subst h
          exact ⟨List.mem_cons_self _ _, hp⟩
    · rw [bpAux_cons_not_pending hp] at h
      rcases bpAux_mem h with ⟨hm, hps⟩
      exact ⟨List.mem_cons_of_mem v hm, hps⟩

theorem bpAux_min :
    ∀ {l : List Task} {t : Task}, bpAux l = some t →
      ∀ u ∈ l, u.state = TaskState.pending → t.createdAt ≤ u.createdAt
  | [], t, h => by simp [bpAux] at h
  | v :: l, t, h => by
    by_cases hp : v.state = TaskState.pending
    · cases hb : bpAux l with
      | none =>
        rw [bpAux_cons_pending_none hp hb] at h
        injection h with h
        subst h
        intro u hu hup
        rcases List.mem_cons.mp hu with rfl | hul
        · exact le_refl _
        · exact absurd hup (bpAux_eq_none.mp hb u hul)
      | some b =>
        rw [bpAux_cons_pending_some hp hb] at h
        have hbmin := bpAux_min hb
        by_cases h2 : b.createdAt < v.createdAt
        · rw [if_pos h2] at h
          injection h with h
          subst h
          intro u hu hup
          rcases List.mem_cons.mp hu with rfl | hul
          · exact le_of_lt h2
          · exact hbmin u hul hup
        · rw [if_neg h2] at h
          injection h with h
          subst h
          intro u hu hup
          rcases List.mem_cons.mp hu with rfl | hul
          · exact le_refl _
          · exact le_trans (le_of_not_lt h2) (hbmin u hul hup)
    · rw [bpAux_cons_not_pending hp] at h
      intro u hu hup
      rcases List.mem_cons.mp hu with rfl | hul
      · exact absurd hup hp
      · exact bpAux_min h u hul hup

theorem bpAux_first :
    ∀ {l : List Task} {t : Task}, bpAux l = some t →
      (l.filter (fun u =>
        u.state == TaskState.pending && u.createdAt == t.createdAt)).head?
        = some t
  | [], t, h => by simp [bpAux] at h
  | v :: l, t, h => by
    by_cases hp : v.state = TaskState.pending
    · cases hb : bpAux l with
      | none =>
        rw [bpAux_cons_pending_none hp hb] at h
        injection h with h
        subst h
        rw [List.filter_cons_of_pos (by simp [hp])]
        rfl
      | some b =>
        rw [bpAux_cons_pending_some hp hb] at h
        by_cases h2 : b.createdAt < v.createdAt
        · rw [if_pos h2] at h
          injection h with h
          subst h
          rw [List.filter_cons_of_neg (by simp [hp]; omega)]
          exact bpAux_first hb
        · rw [if_neg h2] at h
          injection h with h
          subst h
          rw [List.filter_cons_of_pos (by simp [hp])]
          rfl
    · rw [bpAux_cons_not_pending hp] at h
      rw [List.filter_cons_of_neg (by simp [hp])]
      exact bpAux_first h


/-!
### The reachability invariant

`Inv` bundles everything the claims need about reachable manager states:
id uniqueness, the ghost id registry, agreement of the
`currentlyProcessing` counter with the actual number of `processing`
tasks, the concurrency cap, the retry bound and the progress range.
-/

structure Inv (s : QMState) : Prop where
  nodup : (s.tasks.map Task.id).Nodup
  used : ∀ t ∈ s.tasks, t.id ∈ s.usedIds
  counter : s.currentlyProcessing
    = (countState s.tasks TaskState.processing : Int)
  cap : countState s.tasks TaskState.processing ≤ MAX_CONCURRENT
  retryBound : ∀ t ∈ s.tasks, t.retryCount ≤ t.maxRetries
  progressBound : ∀ t ∈ s.tasks, 0 ≤ t.progress ∧ t.progress ≤ 100

theorem initial_inv : Inv initialState := by
  constructor <;> simp [initialState, countState]

theorem countState_replace {s : QMState} {i : Nat} {t : Task} (t' : Task)
    (hn : (s.tasks.map Task.id).Nodup) (hfind : findTask s i = some t)
    (st : TaskState) :
    (countState (replaceById s.tasks i t') st)
      + (if t.state == st then 1 else 0)
      = countState s.tasks st + (if t'.state == st then 1 else 0) := by
  rcases findTask_mem hfind with ⟨hm, hi⟩
  exact countP_replaceById _ hn hm hi

theorem Inv_uewt {s : QMState} (hInv : Inv s) :
    Inv (updateEstimatedWaitTimes s) := by
  constructor
  · rw [uewt_ids]; exact hInv.nodup
  · intro u hu
    rcases uewt_mem hu with ⟨v, hv, w, rfl⟩
    rw [uewt_usedIds]
    exact hInv.used v hv
  · rw [uewt_counter, uewt_countState]; exact hInv.counter
  · rw [uewt_countState]; exact hInv.cap
  · intro u hu
    rcases uewt_mem hu with ⟨v, hv, w, rfl⟩
    exact hInv.retryBound v hv
  · intro u hu
    rcases uewt_mem hu with ⟨v, hv, w, rfl⟩
    exact hInv.progressBound v hv

theorem Inv_create_aux {s : QMState} {task : Task} (hInv : Inv s)
    (hfresh : task.id ∉ s.usedIds)
    (hpend : task.state = TaskState.pending)
    (hretry : task.retryCount ≤ task.maxRetries)
    (hprog : 0 ≤ task.progress ∧ task.progress ≤ 100) :
    Inv { s with tasks := s.tasks ++ [task],
                 usedIds := task.id :: s.usedIds } := by
  have hidnew : task.id ∉ s.tasks.map Task.id := by
    intro hmem
    rcases List.mem_map.mp hmem with ⟨u, hu, hueq⟩
    exact hfresh (hueq ▸ hInv.used u hu)
  constructor
  · rw [List.map_append]
    rw [List.nodup_append]
    refine ⟨hInv.nodup, List.nodup_singleton _, ?_⟩
    intro a ha hb
    rcases List.mem_singleton.mp hb with rfl
    exact hidnew ha
  · intro u hu
    rcases List.mem_append.mp hu with h | h
    · exact List.mem_cons_of_mem _ (hInv.used u h)
    · rcases List.mem_singleton.mp h with rfl
      exact List.mem_cons_self _ _
  · show s.currentlyProcessing = _
    rw [countState, List.countP_append, ← countState]
    have : List.countP (fun t => t.state == TaskState.processing) [task]
        = 0 := by
      simp [List.countP_cons, hpend]
    rw [this, Nat.add_zero]
    exact hInv.counter
  · show countState (s.tasks ++ [task]) TaskState.processing ≤ _
    rw [countState, List.countP_append, ← countState]
    have : List.countP (fun t => t.state == TaskState.processing) [task]
        = 0 := by
      simp [List.countP_cons, hpend]
    rw [this, Nat.add_zero]
    exact hInv.cap
  · intro u hu
    rcases List.mem_append.mp hu with h | h
    · exact hInv.retryBound u h
    · rcases List.mem_singleton.mp h with rfl
      exact hretry
  · intro u hu
    rcases List.mem_append.mp hu with h | h
    · exact hInv.progressBound u h
    · rcases List.mem_singleton.mp h with rfl
      exact hprog

theorem Inv_replace_aux {s : QMState} {i : Nat} {t t' : Task} {c' : Int}
    (hInv : Inv s) (hfind : findTask s i = some t) (hid : t'.id = i)
    (hretry : t'.retryCount ≤ t'.maxRetries)
    (hprog : 0 ≤ t'.progress ∧ t'.progress ≤ 100)
    (hc : c' = s.currentlyProcessing
          + (if t'.state == TaskState.processing then 1 else 0)
          - (if t.state == TaskState.processing then 1 else 0))
    (hcap' : countState (replaceById s.tasks i t') TaskState.processing
      ≤ MAX_CONCURRENT) :
    Inv { s with tasks := replaceById s.tasks i t',
                 currentlyProcessing := c' } := by
  rcases findTask_mem hfind with ⟨hm, hi⟩
  have hcount := countState_replace t' hInv.nodup hfind TaskState.processing
  have hcounter := hInv.counter
  constructor
  · show ((replaceById s.tasks i t').map Task.id).Nodup
    rw [ids_replaceById hid]
    exact hInv.nodup
  · intro u hu
    rcases mem_replaceById hu with rfl | h
    · show u.id ∈ s.usedIds
      rw [hid, ← hi]
      exact hInv.used t hm
    · exact hInv.used u h
  · show c' = (countState (replaceById s.tasks i t') TaskState.processing : Int)
    rcases Bool.eq_false_or_eq_true (t.state == TaskState.processing)
        with hpt | hpt <;>
      rcases Bool.eq_false_or_eq_true (t'.state == TaskState.processing)
        with hpt' | hpt' <;>
      simp only [hpt, hpt'] at hcount hc <;>
      norm_num at hcount hc <;>
      omega
  · exact hcap'
  · intro u hu
    rcases mem_replaceById hu with rfl | h
    · exact hretry
    · exact hInv.retryBound u h
  · intro u hu
    rcases mem_replaceById hu with rfl | h
    · exact hprog
    · exact hInv.progressBound u h

theorem Inv_erase_aux {s : QMState} {i : Nat} {t : Task}
    (hInv : Inv s) (hfind : findTask s i = some t)
    (hnp : ¬t.state = TaskState.processing) :
    Inv { s with tasks := s.tasks.filter (fun u => !(u.id == i)) } := by
  rcases findTask_mem hfind with ⟨hm, hi⟩
  have hcount := countP_eraseId (fun u => u.state == TaskState.processing)
    hInv.nodup hm hi
  rw [if_neg (by simp [hnp])] at hcount
  constructor
  · exact nodup_ids_filter _ hInv.nodup
  · intro u hu
    exact hInv.used u (List.mem_filter.mp hu).1
  · show s.currentlyProcessing
      = (countState (s.tasks.filter (fun u => !(u.id == i)))
          TaskState.processing : Int)
    rw [hInv.counter, countState, countState]
    omega
  · show countState (s.tasks.filter (fun u => !(u.id == i)))
      TaskState.processing ≤ MAX_CONCURRENT
    have hcap := hInv.cap
    rw [countState] at hcap ⊢
    omega
  · intro u hu
    exact hInv.retryBound u (List.mem_filter.mp hu).1
  · intro u hu
    exact hInv.progressBound u (List.mem_filter.mp hu).1


theorem cap_after_release {s : QMState} {i : Nat} {t : Task} (t' : Task)
    (hInv : Inv s) (hfind : findTask s i = some t)
    (hnp' : ¬t'.state = TaskState.processing) :
    countState (replaceById s.tasks i t') TaskState.processing
      ≤ MAX_CONCURRENT := by
  have hcount := countState_replace t' hInv.nodup hfind TaskState.processing
  have hcap5 := hInv.cap
  have h' : (t'.state == TaskState.processing) = false := by simp [hnp']
  rw [h'] at hcount
  rcases Bool.eq_false_or_eq_true (t.state == TaskState.processing)
      with hpt | hpt <;>
    rw [hpt] at hcount <;> norm_num at hcount <;> omega

theorem cap_after_same {s : QMState} {i : Nat} {t : Task} (t' : Task)
    (hInv : Inv s) (hfind : findTask s i = some t)
    (hsame : t'.state = t.state) :
    countState (replaceById s.tasks i t') TaskState.processing
      ≤ MAX_CONCURRENT := by
  have hcount := countState_replace t' hInv.nodup hfind TaskState.processing
  rw [hsame] at hcount
  have hcap5 := hInv.cap
  omega

theorem cap_after_start {s : QMState} {i : Nat} {t : Task} (t' : Task)
    (hInv : Inv s) (hfind : findTask s i = some t)
    (hcap : hasCapacity s = true) :
    countState (replaceById s.tasks i t') TaskState.processing
      ≤ MAX_CONCURRENT := by
  have hcount := countState_replace t' hInv.nodup hfind TaskState.processing
  have hcapb : s.currentlyProcessing < (MAX_CONCURRENT : Int) := by
    simpa [hasCapacity] using hcap
  have hcounter := hInv.counter
  rcases Bool.eq_false_or_eq_true (t.state == TaskState.processing)
      with hpt | hpt <;>
    rcases Bool.eq_false_or_eq_true (t'.state == TaskState.processing)
      with hpt' | hpt' <;>
    rw [hpt, hpt'] at hcount <;> norm_num at hcount <;> omega

/-- Every operational step preserves the invariant. -/
theorem Inv_step {s s' : QMState} {evs : List Event}
    (hstep : Step s s' evs) (hInv : Inv s) : Inv s' := by
  cases hstep with
  | create id prompt now hfresh =>
    by_cases hfull : MAX_QUEUE_SIZE ≤ s.tasks.length
    · simpa only [createTask, if_pos hfull] using hInv
    · simp only [createTask, if_neg hfull]
      exact Inv_create_aux hInv hfresh rfl (Nat.zero_le _) (by norm_num)
  | dispatch now t hcap hnext =>
    rw [getNextPendingTask_eq_bpAux] at hnext
    rcases bpAux_mem hnext with ⟨hm, hpend⟩
    have hfind : findTask s t.id = some t := findTask_of_mem hInv.nodup hm
    simp only [startProcessing, hfind]
    refine Inv_replace_aux hInv hfind rfl (hInv.retryBound t hm)
      (by norm_num) ?_ ?_
    · simp [hpend]
    · exact cap_after_start _ hInv hfind hcap
  | complete id result now t hfind hproc =>
    simp only [completeTask, hfind]
    refine Inv_uewt (Inv_replace_aux hInv hfind (findTask_mem hfind).2
      (hInv.retryBound t (findTask_mem hfind).1) (by norm_num) ?_ ?_)
    · simp [hproc]
    · exact cap_after_release _ hInv hfind (by simp)
  | fail id error isRetryable now rand t hfind hproc h0 h1 =>
    simp only [failTask, hfind]
    by_cases hsr : (isRetryable && decide (t.retryCount < t.maxRetries)) = true
    · rw [if_pos hsr]
      have hlt : t.retryCount < t.maxRetries := by
        have := (Bool.and_eq_true _ _).mp hsr
        exact of_decide_eq_true this.2
      refine Inv_replace_aux hInv hfind (findTask_mem hfind).2 hlt ?_ ?_ ?_
      · exact hInv.progressBound t (findTask_mem hfind).1
      · simp [hproc]
      · exact cap_after_release _ hInv hfind (by simp)
    · rw [if_neg hsr]
      refine Inv_replace_aux hInv hfind (findTask_mem hfind).2
        (hInv.retryBound t (findTask_mem hfind).1) ?_ ?_ ?_
      · exact hInv.progressBound t (findTask_mem hfind).1
      · simp [hproc]
      · exact cap_after_release _ hInv hfind (by simp)
  | requeue now t hdue =>
    have hmem := (List.mem_filter.mp hdue).1
    have hret : t.state = TaskState.retrying := by
      have := (List.mem_filter.mp hdue).2
      rcases Bool.and_eq_true _ _ |>.mp this with ⟨h, _⟩
      simpa using h
    have hfind : findTask s t.id = some t := findTask_of_mem hInv.nodup hmem
    simp only [requeueForRetry, hfind]
    refine Inv_replace_aux hInv hfind rfl (hInv.retryBound t hmem)
      (hInv.progressBound t hmem) ?_ ?_
    · simp [hret]
    · exact cap_after_release _ hInv hfind (by simp)
  | cancel id =>
    cases hfind : findTask s id with
    | none => simpa only [cancelTask, hfind] using hInv
    | some task =>
      by_cases hpc : task.state = TaskState.processing
      · simpa only [cancelTask, hfind, if_pos hpc] using hInv
      · simp only [cancelTask, hfind, if_neg hpc]
        exact Inv_erase_aux hInv hfind hpc
  | progress id p =>
    cases hfind : findTask s id with
    | none => simpa only [updateProgress, hfind] using hInv
    | some task =>
      simp only [updateProgress, hfind]
      refine Inv_replace_aux hInv hfind (findTask_mem hfind).2
        (hInv.retryBound task (findTask_mem hfind).1) ?_ ?_ ?_
      · constructor <;> simp
      · simp
      · exact cap_after_same _ hInv hfind rfl

  | subscribe =>
    exact hInv

theorem trace_inv {s s' : QMState} {evs : List Event}
    (htr : Trace s s' evs) (h : Inv s) : Inv s' := by
  induction htr with
  | refl => exact h
  | tail htr hst ih => exact Inv_step hst ih

theorem reachable_inv {s : QMState} (h : Reachable s) : Inv s := by
  rcases h with ⟨evs, htr⟩
  exact trace_inv htr initial_inv


/-!
### Absent ids are never mentioned again

Once an id is absent from the store (and registered in `usedIds`, so a
fresh uuid can never collide with it), no operation ever emits an event
whose payload references it.
-/

theorem step_no_mention {s s' : QMState} {evs : List Event} {i : Nat}
    (hstep : Step s s' evs)
    (habs : ∀ u ∈ s.tasks, u.id ≠ i) (hused : i ∈ s.usedIds) :
    (∀ u ∈ s'.tasks, u.id ≠ i) ∧ i ∈ s'.usedIds ∧
      ∀ e ∈ evs, mentionsId e i = false := by
  cases hstep with
  | create id prompt now hfresh =>
    by_cases hfull : MAX_QUEUE_SIZE ≤ s.tasks.length
    · simp only [createTask, if_pos hfull]
      exact ⟨habs, hused, by simp⟩
    · have hne : id ≠ i := fun h => hfresh (h ▸ hused)
      simp only [createTask, if_neg hfull]
      refine ⟨?_, List.mem_cons_of_mem _ hused, ?_⟩
      · intro u hu
        rcases List.mem_append.mp hu with h | h
        · exact habs u h
        · rcases List.mem_singleton.mp h with rfl
          exact hne
      · intro e he
        rcases List.mem_cons.mp he with rfl | he
        · simp [mentionsId, hne]
        · rcases List.mem_singleton.mp he with rfl
          simp [mentionsId]
  | dispatch now t hcap hnext =>
    cases hfind : findTask s t.id with
    | none =>
      simp only [startProcessing, hfind]
      exact ⟨habs, hused, by simp⟩
    | some u =>
      rcases findTask_mem hfind with ⟨hum, hui⟩
      have hne : t.id ≠ i := by
        rw [← hui]; exact habs u hum
      simp only [startProcessing, hfind]
      refine ⟨?_, hused, ?_⟩
      · intro v hv
        rcases mem_replaceById hv with rfl | h
        · show u.id ≠ i
          rw [hui]; exact hne
        · exact habs v h
      · intro e he
        rcases List.mem_cons.mp he with rfl | he
        · show (Task.id _ == i) = false
          simp [hui, hne]
        · rcases List.mem_singleton.mp he with rfl
          simp [mentionsId]
  | complete id result now t hfind hproc =>
    rcases findTask_mem hfind with ⟨hum, hui⟩
    have hne : id ≠ i := by
      rw [← hui]; exact habs t hum
    simp only [completeTask, hfind]
    refine ⟨?_, ?_, ?_⟩
    · intro v hv
      rcases uewt_mem hv with ⟨w, hw, x, rfl⟩
      show w.id ≠ i
      rcases mem_replaceById hw with rfl | h
      · show t.id ≠ i
        rw [hui]; exact hne
      · exact habs w h
    · rw [uewt_usedIds]; exact hused
    · intro e he
      rcases List.mem_cons.mp he with rfl | he
      · show (Task.id _ == i) = false
        simp [hui, hne]
      · rcases List.mem_singleton.mp he with rfl
        simp [mentionsId]
  | fail id error isRetryable now rand t hfind hproc h0 h1 =>
    rcases findTask_mem hfind with ⟨hum, hui⟩
    have hne : id ≠ i := by
      rw [← hui]; exact habs t hum
    simp only [failTask, hfind]
    by_cases hsr : (isRetryable && decide (t.retryCount < t.maxRetries)) = true
    · rw [if_pos hsr]
      refine ⟨?_, hused, ?_⟩
      · intro v hv
        rcases mem_replaceById hv with rfl | h
        · show t.id ≠ i
          rw [hui]; exact hne
        · exact habs v h
      · intro e he
        rcases List.mem_cons.mp he with rfl | he
        · simp [mentionsId, hne]
        · rcases List.mem_singleton.mp he with rfl
          simp [mentionsId]
    · rw [if_neg hsr]
      refine ⟨?_, hused, ?_⟩
      · intro v hv
        rcases mem_replaceById hv with rfl | h
        · show t.id ≠ i
          rw [hui]; exact hne
        · exact habs v h
      · intro e he
        rcases List.mem_cons.mp he with rfl | he
        · show (Task.id _ == i) = false
          simp [hui, hne]
        · rcases List.mem_singleton.mp he with rfl
          simp [mentionsId]
  | requeue now t hdue =>
    have hmem := (List.mem_filter.mp hdue).1
    have hne : t.id ≠ i := habs t hmem
    cases hfind : findTask s t.id with
    | none =>
      simp only [requeueForRetry, hfind]
      exact ⟨habs, hused, by simp⟩
    | some u =>
      rcases findTask_mem hfind with ⟨hum, hui⟩
      simp only [requeueForRetry, hfind]
      refine ⟨?_, hused, ?_⟩
      · intro v hv
        rcases mem_replaceById hv with rfl | h
        · show u.id ≠ i
          rw [hui]; exact hne
        · exact habs v h
      · intro e he
        rcases List.mem_singleton.mp he with rfl
        show (Task.id _ == i) = false
        simp [hui, hne]
  | cancel id =>
    cases hfind : findTask s id with
    | none =>
      simp only [cancelTask, hfind]
      exact ⟨habs, hused, by simp⟩
    | some task =>
      rcases findTask_mem hfind with ⟨hum, hui⟩
      have hne : id ≠ i := by
        rw [← hui]; exact habs task hum
      by_cases hpc : task.state = TaskState.processing
      · simp only [cancelTask, hfind, if_pos hpc]
        exact ⟨habs, hused, by simp⟩
      · simp only [cancelTask, hfind, if_neg hpc]
        refine ⟨?_, hused, ?_⟩
        · intro v hv
          exact habs v (List.mem_filter.mp hv).1
        · intro e he
          rcases List.mem_cons.mp he with rfl | he
          · simp [mentionsId, hne]
          · rcases List.mem_singleton.mp he with rfl
            simp [mentionsId]
  | progress id p =>
    cases hfind : findTask s id with
    | none =>
      simp only [updateProgress, hfind]
      exact ⟨habs, hused, by simp⟩
    | some task =>
      rcases findTask_mem hfind with ⟨hum, hui⟩
      have hne : id ≠ i := by
        rw [← hui]; exact habs task hum
      simp only [updateProgress, hfind]
      refine ⟨?_, hused, ?_⟩
      · intro v hv
        rcases mem_replaceById hv with rfl | h
        · show task.id ≠ i
          rw [hui]; exact hne
        · exact habs v h
      · intro e he
        rcases List.mem_singleton.mp he with rfl
        simp [mentionsId, hne]
  | subscribe =>
    refine ⟨habs, hused, ?_⟩
    intro e he
    rcases List.mem_cons.mp he with rfl | he
    · simp only [mentionsId]
      rw [List.any_eq_false]
      intro u hu
      have := mem_sortByCreatedAtDesc hu
      simp [habs u this]
    · rcases List.mem_singleton.mp he with rfl
      simp [mentionsId]

theorem trace_no_mention {s s' : QMState} {evs : List Event} {i : Nat}
    (htr : Trace s s' evs)
    (habs : ∀ u ∈ s.tasks, u.id ≠ i) (hused : i ∈ s.usedIds) :
    (∀ u ∈ s'.tasks, u.id ≠ i) ∧ i ∈ s'.usedIds ∧
      ∀ e ∈ evs, mentionsId e i = false := by
  induction htr with
  | refl => exact ⟨habs, hused, by simp⟩
  | tail htr hst ih =>
    rcases ih with ⟨g1, g2, g3⟩
    rcases step_no_mention hst g1 g2 with ⟨k1, k2, k3⟩
    refine ⟨k1, k2, ?_⟩
    intro e he
    rcases List.mem_append.mp he with h | h
    · exact g3 e h
    · exact k3 e h


/-!
### Backoff arithmetic
-/

/-- Modelled from the spec (§4.2 Backoff Policy wording, for comparison
with the source formula): `delay(attempt) = min(baseDelay * 2^(attempt-1),
capDelay)` with symmetric jitter of ±25 percent, `delay * (1 +
0.25*(2*rand()-1))`, floored. -/
def specJitterDelay (rand : Rat) (attempt : Nat) : Int :=
  ⌊(min (2000 * (2 : Rat) ^ ((attempt : Int) - 1)) 60000)
      * (1 + (1/4) * (2 * rand - 1))⌋

theorem unjittered_ge {k : Nat} (hk : 1 ≤ k) :
    (2000 : Rat)
      ≤ min (BASE_RETRY_DELAY * (2 : Rat) ^ ((k : Int) - 1))
          MAX_RETRY_DELAY := by
  have hz : (k : Int) - 1 = ((k - 1 : Nat) : Int) := by omega
  have hpow : (1 : Rat) ≤ (2 : Rat) ^ ((k : Int) - 1) := by
    rw [hz, zpow_natCast]
    exact one_le_pow₀ (by norm_num)
  rw [BASE_RETRY_DELAY, MAX_RETRY_DELAY]
  refine le_min ?_ (by norm_num)
  nlinarith

theorem calculateBackoff_floor (rand : Rat) (k : Nat) (d : Rat)
    (hd : d = min (BASE_RETRY_DELAY * (2 : Rat) ^ ((k : Int) - 1))
        MAX_RETRY_DELAY) :
    calculateBackoff rand k = ⌊d + d * (1/4) * (rand - 1/2)⌋ := by
  rw [calculateBackoff, hd]

theorem calculateBackoff_bounds (k : Nat) (rand d : Rat)
    (hk : 1 ≤ k)
    (hd : d = min (BASE_RETRY_DELAY * (2 : Rat) ^ ((k : Int) - 1))
        MAX_RETRY_DELAY)
    (h0 : 0 ≤ rand) (h1 : rand < 1) :
    (7/8) * d - 1 < (calculateBackoff rand k : Rat)
      ∧ (calculateBackoff rand k : Rat) < (9/8) * d := by
  have hd2000 : (2000 : Rat) ≤ d := hd ▸ unjittered_ge hk
  rw [calculateBackoff_floor rand k d hd]
  have hflo : ((⌊d + d * (1/4) * (rand - 1/2)⌋ : Int) : Rat)
      ≤ d + d * (1/4) * (rand - 1/2) := Int.floor_le _
  have hfhi : d + d * (1/4) * (rand - 1/2) - 1
      < ((⌊d + d * (1/4) * (rand - 1/2)⌋ : Int) : Rat) :=
    Int.sub_one_lt_floor _
  have hjlo : -(d / 8) ≤ d * (1/4) * (rand - 1/2) := by nlinarith
  have hjhi : d * (1/4) * (rand - 1/2) < d / 8 := by nlinarith
  constructor <;> linarith

theorem calculateBackoff_center (k : Nat) (d : Rat)
    (hd : d = min (BASE_RETRY_DELAY * (2 : Rat) ^ ((k : Int) - 1))
        MAX_RETRY_DELAY) :
    calculateBackoff (1/2) k = ⌊d⌋ := by
  rw [calculateBackoff_floor (1/2) k d hd]
  congr 1
  ring

/-!
### `createTask` sequences (capacity)
-/

theorem createTask_full {s : QMState} (id : Nat) (prompt : String)
    (now : Int) (hfull : MAX_QUEUE_SIZE ≤ s.tasks.length) :
    createTask s id prompt now
      = (s, [], .error "Queue full - please wait for some tasks to complete")
    := by
  simp [createTask, hfull]

theorem createTask_ok_length {s : QMState} (id : Nat) (prompt : String)
    (now : Int) (hroom : ¬MAX_QUEUE_SIZE ≤ s.tasks.length) :
    (createTask s id prompt now).1.tasks.length = s.tasks.length + 1 := by
  simp [createTask, hroom]

theorem runCreates_length :
    ∀ (inputs : List (Nat × String × Int)) (s : QMState),
      s.tasks.length ≤ MAX_QUEUE_SIZE →
      (runCreates s inputs).tasks.length
        = min (s.tasks.length + inputs.length) MAX_QUEUE_SIZE
  | [], s, h => by
    simp only [runCreates, List.foldl_nil, List.length_nil]
    omega
  | inp :: inputs, s, h => by
    show (runCreates (createTask s inp.1 inp.2.1 inp.2.2).1 inputs).tasks.length
      = _
    by_cases hfull : MAX_QUEUE_SIZE ≤ s.tasks.length
    · rw [show (createTask s inp.1 inp.2.1 inp.2.2).1 = s from by
        rw [createTask_full _ _ _ hfull]]
      rw [runCreates_length inputs s h]
      simp only [List.length_cons]
      omega
    · have hlen := createTask_ok_length inp.1 inp.2.1 inp.2.2 hfull
      rw [runCreates_length inputs _ (by omega), hlen]
      simp only [List.length_cons]
      omega


/-!
### Concrete states used by witnesses and counterexamples
-/

/-- A stored task that is `processing` with its retry budget exhausted. -/
def exC2task : Task :=
  { id := 7, prompt := "x", state := .processing, createdAt := 0,
    startedAt := some 0, completedAt := none, result := none, error := none,
    retryCount := 5, maxRetries := 5, nextRetryAt := none, progress := 10,
    estimatedWaitTime := 0 }

/-- A manager state holding the task above. -/
def exC2 : QMState :=
  { tasks := [exC2task], currentlyProcessing := 1, usedIds := [7] }

/-- A manager state at capacity: 100 stored tasks. -/
def exFull : QMState :=
  { tasks := List.replicate 100 exC2task, currentlyProcessing := 0,
    usedIds := [] }

/-!
### The claims
-/

/-- C1: in every reachable state of the queue — under any interleaving of
the dispatch cycle (`hasCapacity` check, `getNextPendingTask`,
`startProcessing`), `completeTask`, `failTask`, `requeueForRetry`,
`cancelTask` (and also `createTask`, `updateProgress` and subscription) —
the number of stored tasks in state `processing` never exceeds
`MAX_CONCURRENT` (5). -/
theorem C1_processing_cap (s : QMState) (h : Reachable s) :
    countState s.tasks TaskState.processing ≤ MAX_CONCURRENT :=
  (reachable_inv h).cap

theorem C1_processing_cap_witness :
    Reachable initialState
      ∧ countState initialState.tasks TaskState.processing ≤ MAX_CONCURRENT :=
  ⟨⟨[], Trace.refl _⟩, C1_processing_cap initialState ⟨[], Trace.refl _⟩⟩

/-- C2: in every reachable state a task's `retryCount` never exceeds its
`maxRetries`, and a retryable `failTask` on a task whose `retryCount`
already equals `maxRetries` (the `(maxRetries+1)`-th retryable failure)
moves it to `failed`, not `retrying`. -/
theorem C2_retry_bound :
    (∀ s : QMState, Reachable s → ∀ t ∈ s.tasks, t.retryCount ≤ t.maxRetries)
    ∧ (∀ (s : QMState) (i : Nat) (e : Err) (now : Int) (rand : Rat)
          (t : Task),
        findTask s i = some t → t.retryCount = t.maxRetries →
        ∃ t', (failTask s i e true now rand).2.2 = some t'
          ∧ t'.state = TaskState.failed) := by
  constructor
  · intro s h t ht
    exact (reachable_inv h).retryBound t ht
  · intro s i e now rand t hfind heq
    simp only [failTask, hfind]
    rw [if_neg (by simp [heq])]
    exact ⟨_, rfl, rfl⟩

theorem C2_retry_bound_witness :
    (Reachable initialState
      ∧ ∀ t ∈ initialState.tasks, t.retryCount ≤ t.maxRetries)
    ∧ (findTask exC2 7 = some exC2task
        ∧ exC2task.retryCount = exC2task.maxRetries
        ∧ ∃ t', (failTask exC2 7 ⟨"E", "m"⟩ true 9 0).2.2 = some t'
            ∧ t'.state = TaskState.failed) :=
  ⟨⟨⟨[], Trace.refl _⟩,
    C2_retry_bound.1 initialState ⟨[], Trace.refl _⟩⟩,
   ⟨rfl, rfl, C2_retry_bound.2 exC2 7 ⟨"E", "m"⟩ 9 0 exC2task rfl rfl⟩⟩

/-- C3: `createTask` on a state whose stored-task count (any state) has
reached `MAX_QUEUE_SIZE` (100) fails with the `Queue full` error and
changes nothing; consequently in any sequence of create calls from the
fresh manager the stored count never passes 100 and the `(100+1)`-th call
(and every later one while full) is rejected with the state unchanged. -/
theorem C3_queue_full :
    (∀ (s : QMState) (id : Nat) (prompt : String) (now : Int),
        MAX_QUEUE_SIZE ≤ s.tasks.length →
        createTask s id prompt now
          = (s, [],
             .error "Queue full - please wait for some tasks to complete"))
    ∧ (∀ inputs : List (Nat × String × Int),
        (runCreates initialState inputs).tasks.length
          = min inputs.length MAX_QUEUE_SIZE)
    ∧ (∀ (inputs : List (Nat × String × Int)) (id : Nat) (prompt : String)
          (now : Int),
        MAX_QUEUE_SIZE ≤ inputs.length →
        createTask (runCreates initialState inputs) id prompt now
          = (runCreates initialState inputs, [],
             .error "Queue full - please wait for some tasks to complete"))
    := by
  have hinit : initialState.tasks.length ≤ MAX_QUEUE_SIZE := by
    simp [initialState]
  refine ⟨fun s id prompt now h => createTask_full id prompt now h, ?_, ?_⟩
  · intro inputs
    have h := runCreates_length inputs initialState hinit
    simpa [initialState] using h
  · intro inputs id prompt now h
    apply createTask_full
    rw [runCreates_length inputs initialState hinit]
    simp only [initialState, List.length_nil, Nat.zero_add]
    omega

theorem C3_queue_full_witness :
    MAX_QUEUE_SIZE ≤ exFull.tasks.length
      ∧ createTask exFull 0 "p" 0
          = (exFull, [],
             .error "Queue full - please wait for some tasks to complete") :=
  ⟨by simp [exFull, MAX_QUEUE_SIZE],
   C3_queue_full.1 exFull 0 "p" 0 (by simp [exFull, MAX_QUEUE_SIZE])⟩


/-- Two tasks created at the same timestamp: first the one with id 5, then
the one with id 3 — a `createdAt` tie in insertion order. -/
def exC4 : QMState :=
  (createTask (createTask initialState 5 "a" 0).1 3 "b" 0).1

/-- C4 counterexample: in the reachable state `exC4` both stored tasks are
pending with the same (minimal) `createdAt = 0`, and `getNextPendingTask`
returns the task with id 5 — the earlier-inserted one — although a pending
task with the smaller id 3 shares the minimal `createdAt`.  So ties are
not broken by smaller id. -/
theorem C4_counterexample :
    Reachable exC4
      ∧ (getNextPendingTask exC4).map Task.id = some 5
      ∧ (∃ u ∈ exC4.tasks, u.id = 3 ∧ u.state = TaskState.pending
          ∧ u.createdAt = 0)
      ∧ (∃ u ∈ exC4.tasks, u.id = 5 ∧ u.state = TaskState.pending
          ∧ u.createdAt = 0)
      ∧ (∀ u ∈ exC4.tasks, u.createdAt = 0)
      ∧ (5 : Nat) ≠ 3 := by
  refine ⟨?_, by decide, by decide, by decide, by decide, by decide⟩
  exact ⟨_, Trace.tail (Trace.tail (Trace.refl _)
    (Step.create 5 "a" 0 (by decide)))
    (Step.create 3 "b" 0 (by decide))⟩

/-- C4 (amended): `getNextPendingTask` returns nothing iff no pending task
is stored; otherwise it returns a stored pending task with minimal
`createdAt`, and among the pending tasks sharing that minimal `createdAt`
it deterministically returns the first-inserted one (insertion order, not
smallest id). -/
theorem C4_next_pending_spec (s : QMState) :
    (getNextPendingTask s = none
        ↔ ∀ t ∈ s.tasks, t.state ≠ TaskState.pending)
    ∧ (∀ t : Task, getNextPendingTask s = some t →
        t ∈ s.tasks ∧ t.state = TaskState.pending
          ∧ (∀ u ∈ s.tasks, u.state = TaskState.pending →
              t.createdAt ≤ u.createdAt)
          ∧ (s.tasks.filter (fun u =>
              u.state == TaskState.pending
                && u.createdAt == t.createdAt)).head? = some t) := by
  rw [getNextPendingTask_eq_bpAux]
  constructor
  · exact ⟨fun h t ht => bpAux_eq_none.mp h t ht, bpAux_eq_none.mpr⟩
  · intro t h
    rcases bpAux_mem h with ⟨hm, hp⟩
    exact ⟨hm, hp, bpAux_min h, bpAux_first h⟩

theorem C4_next_pending_spec_witness :
    ∃ t, getNextPendingTask exC4 = some t
      ∧ (t ∈ exC4.tasks ∧ t.state = TaskState.pending
          ∧ (∀ u ∈ exC4.tasks, u.state = TaskState.pending →
              t.createdAt ≤ u.createdAt)
          ∧ (exC4.tasks.filter (fun u =>
              u.state == TaskState.pending
                && u.createdAt == t.createdAt)).head? = some t) :=
  ⟨_, rfl, (C4_next_pending_spec exC4).2 _ rfl⟩

/-- C5 counterexample: at the first retry with `rand = 0` the source's
`calculateBackoff` yields `⌊2000 - 2000/8⌋ = 1750` (jitter is ±12.5 percent
of the capped delay), while the claimed formula
`⌊2000 * (1 + 0.25*(2*0-1))⌋` yields 1500 (±25 percent).  The claimed
equality fails. -/
theorem C5_counterexample :
    calculateBackoff 0 1 = 1750 ∧ specJitterDelay 0 1 = 1500
      ∧ calculateBackoff 0 1 ≠ specJitterDelay 0 1 := by
  have h1 : calculateBackoff 0 1 = 1750 := by
    unfold calculateBackoff BASE_RETRY_DELAY MAX_RETRY_DELAY
    norm_num
  have h2 : specJitterDelay 0 1 = 1500 := by
    unfold specJitterDelay
    norm_num
  exact ⟨h1, h2, by rw [h1, h2]; decide⟩

/-- C5 (amended): for attempt `k ≥ 1` and `rand ∈ [0,1)`, with unjittered
delay `d = min(2000 * 2^(k-1), 60000)` exactly as claimed, the source
returns `⌊d + d*0.25*(rand - 0.5)⌋` — symmetric jitter of ±12.5 percent
(not ±25 percent) of `d`, floored; at `rand = 1/2` the delay is exactly
`⌊d⌋`; the result always lies strictly within ±12.5 percent of `d` (up to
the flooring −1), in particular within the spec's claimed ±25 percent
envelope. -/
theorem C5_backoff_spec (k : Nat) (rand d : Rat)
    (hk : 1 ≤ k)
    (hd : d = min (BASE_RETRY_DELAY * (2 : Rat) ^ ((k : Int) - 1))
        MAX_RETRY_DELAY)
    (h0 : 0 ≤ rand) (h1 : rand < 1) :
    calculateBackoff rand k = ⌊d + d * (1/4) * (rand - 1/2)⌋
      ∧ calculateBackoff (1/2) k = ⌊d⌋
      ∧ (7/8) * d - 1 < (calculateBackoff rand k : Rat)
      ∧ (calculateBackoff rand k : Rat) < (9/8) * d
      ∧ (3/4) * d ≤ (calculateBackoff rand k : Rat)
      ∧ (calculateBackoff rand k : Rat) ≤ (5/4) * d := by
  have hd2000 : (2000 : Rat) ≤ d := hd ▸ unjittered_ge hk
  rcases calculateBackoff_bounds k rand d hk hd h0 h1 with ⟨hb1, hb2⟩
  exact ⟨calculateBackoff_floor rand k d hd, calculateBackoff_center k d hd,
    hb1, hb2, by linarith, by linarith⟩

theorem C5_backoff_spec_witness :
    calculateBackoff 0 1 = ⌊(2000 : Rat) + 2000 * (1/4) * ((0 : Rat) - 1/2)⌋
      ∧ (7/8) * (2000 : Rat) - 1 < (calculateBackoff 0 1 : Rat) := by
  have h := C5_backoff_spec 1 0 2000 (by norm_num)
    (by norm_num [BASE_RETRY_DELAY, MAX_RETRY_DELAY]) (by norm_num)
    (by norm_num)
  exact ⟨h.1, h.2.2.1⟩


/-- One freshly created pending task with id 1. -/
def exCreated : QMState := (createTask initialState 1 "p" 0).1

/-- The same task after dispatch: id 1 is `processing`. -/
def exProcessing : QMState := (startProcessing exCreated 1 0).1

/-- The task record `createTask` builds in `exCreated`. -/
def exTask1 : Task :=
  { id := 1, prompt := "p".trim, state := .pending, createdAt := 0,
    startedAt := none, completedAt := none, result := none, error := none,
    retryCount := 0, maxRetries := MAX_RETRIES, nextRetryAt := none,
    progress := 0, estimatedWaitTime := calculateEstimatedWait initialState }

theorem exCreated_reachable : Reachable exCreated :=
  ⟨_, Trace.tail (Trace.refl _) (Step.create 1 "p" 0 (by decide))⟩

theorem exProcessing_reachable : Reachable exProcessing := by
  have hnext : getNextPendingTask exCreated = some exTask1 := rfl
  have h2 : Step exCreated (startProcessing exCreated exTask1.id 0).1
      (startProcessing exCreated exTask1.id 0).2.1 :=
    Step.dispatch 0 exTask1 (by decide) hnext
  exact ⟨_, Trace.tail (Trace.tail (Trace.refl _)
    (Step.create 1 "p" 0 (by decide))) h2⟩

/-- C6: cancelling a `processing` task returns `false` and changes nothing
(no state change, no events); cancelling a `pending` or `retrying` task
returns `true`, removes the record entirely, emits exactly
`task_cancelled` carrying the id followed by a stats event, and afterwards
no event emitted by any further run of the system mentions that id. -/
theorem C6_cancel_spec (s : QMState) (i : Nat) (t : Task)
    (hre : Reachable s) (hfind : findTask s i = some t) :
    (t.state = TaskState.processing → cancelTask s i = (s, [], false))
    ∧ ((t.state = TaskState.pending ∨ t.state = TaskState.retrying) →
        (cancelTask s i).2.2 = true
        ∧ (∀ u ∈ (cancelTask s i).1.tasks, u.id ≠ i)
        ∧ (cancelTask s i).2.1
            = [Event.task_cancelled i,
               Event.queue_stats (getStats (cancelTask s i).1)]
        ∧ mentionsId (Event.task_cancelled i) i = true
        ∧ (∀ s' evs, Trace (cancelTask s i).1 s' evs →
            ∀ e ∈ evs, mentionsId e i = false)) := by
  have hInv := reachable_inv hre
  constructor
  · intro hproc
    simp [cancelTask, hfind, hproc]
  · intro hst
    have hnp : ¬t.state = TaskState.processing := by
      rcases hst with h | h <;> simp [h]
    have hcanc : cancelTask s i
        = ({ s with tasks := s.tasks.filter (fun u => !(u.id == i)) },
           [Event.task_cancelled i,
            Event.queue_stats (getStats
              { s with tasks := s.tasks.filter (fun u => !(u.id == i)) })],
           true) := by
      simp [cancelTask, hfind, hnp]
    refine ⟨by rw [hcanc], ?_, by rw [hcanc], by simp [mentionsId], ?_⟩
    · intro u hu
      rw [hcanc] at hu
      exact not_mem_eraseId u hu
    · intro s' evs htr e he
      rw [hcanc] at htr
      have habs : ∀ u ∈ (s.tasks.filter (fun u => !(u.id == i))), u.id ≠ i :=
        fun u hu => not_mem_eraseId u hu
      have hused : i ∈ s.usedIds := by
        rw [← (findTask_mem hfind).2]
        exact hInv.used t (findTask_mem hfind).1
      exact (trace_no_mention htr habs hused).2.2 e he

theorem C6_cancel_spec_witness :
    Reachable exCreated
      ∧ (∃ t, findTask exCreated 1 = some t ∧ t.state = TaskState.pending)
      ∧ (cancelTask exCreated 1).2.2 = true
      ∧ (∀ u ∈ (cancelTask exCreated 1).1.tasks, u.id ≠ 1) := by
  have hre : Reachable exCreated := exCreated_reachable
  have h := (C6_cancel_spec exCreated 1 _ hre rfl).2 (Or.inl rfl)
  exact ⟨hre, ⟨_, rfl, rfl⟩, h.1, h.2.1⟩

/-- C7 counterexample: in the reachable state `exProcessing` the stored
task with id 1 is `processing`; calling `updateProgress` with 50 and then
with 20 leaves `progress = 20 < 50` — progress is *not* monotonically
non-decreasing across `updateProgress` calls while `processing`. -/
theorem C7_counterexample :
    Reachable exProcessing
      ∧ (∃ t ∈ exProcessing.tasks, t.state = TaskState.processing)
      ∧ (findTask (updateProgress exProcessing 1 50).1 1).map Task.progress
          = some 50
      ∧ (findTask (updateProgress (updateProgress exProcessing 1 50).1
            1 20).1 1).map Task.progress = some 20
      ∧ ¬(50 : Int) ≤ 20 := by
  exact ⟨exProcessing_reachable, by decide, by decide, by decide, by decide⟩

/-- C7 (amended): in every reachable state each task's `progress` is an
integer in `[0, 100]` (each `updateProgress` clamps to that range, and
`startProcessing` resets it to 0 for each new processing attempt); but
`updateProgress` does not enforce monotonicity — the stored progress is
non-decreasing only when the value passed is at least the current
progress, as the in-repo progress callbacks do. -/
theorem C7_progress_spec :
    (∀ s : QMState, Reachable s → ∀ t ∈ s.tasks,
        0 ≤ t.progress ∧ t.progress ≤ 100)
    ∧ (∀ (s : QMState) (i : Nat) (now : Int),
        findTask (startProcessing s i now).1 i
          = (findTask s i).map (fun t =>
              { t with state := TaskState.processing,
                       startedAt := some now, progress := 0 }))
    ∧ (∀ (s : QMState) (i : Nat) (p : Int) (t : Task),
        findTask s i = some t → t.progress ≤ 100 → t.progress ≤ p →
        ∀ t', findTask (updateProgress s i p).1 i = some t' →
          t.progress ≤ t'.progress) := by
  refine ⟨?_, ?_, ?_⟩
  · intro s h t ht
    exact (reachable_inv h).progressBound t ht
  · intro s i now
    cases hfind : findTask s i with
    | none => simp [startProcessing, hfind]
    | some t =>
      simp only [startProcessing, hfind]
      have hrw := @find?_replaceById i
        ({ t with state := TaskState.processing, startedAt := some now,
                  progress := 0 }) ((findTask_mem hfind).2) s.tasks
      show (replaceById s.tasks i _).find? (fun u => u.id == i) = _
      rw [hrw]
      rw [show s.tasks.find? (fun u => u.id == i) = some t from hfind]
      rfl
  · intro s i p t hfind h100 hle t' hfind'
    simp only [updateProgress, hfind] at hfind'
    have hrw := @find?_replaceById i
      ({ t with progress := min 100 (max 0 p) })
      ((findTask_mem hfind).2) s.tasks
    have h2 : (replaceById s.tasks i
        ({ t with progress := min 100 (max 0 p) })).find?
          (fun u => u.id == i) = some t' := hfind'
    rw [hrw, show s.tasks.find? (fun u => u.id == i) = some t from hfind]
      at h2
    simp only [Option.map_some'] at h2
    injection h2 with h2
    rw [← h2]
    show t.progress ≤ min 100 (max 0 p)
    omega

theorem C7_progress_spec_witness :
    Reachable initialState
      ∧ (∀ t ∈ initialState.tasks, 0 ≤ t.progress ∧ t.progress ≤ 100)
      ∧ (findTask exC2 7 = some exC2task ∧ exC2task.progress ≤ 100
          ∧ exC2task.progress ≤ 60
          ∧ ∀ t', findTask (updateProgress exC2 7 60).1 7 = some t' →
              exC2task.progress ≤ t'.progress) :=
  ⟨⟨[], Trace.refl _⟩,
   C7_progress_spec.1 initialState ⟨[], Trace.refl _⟩,
   rfl, by decide, by decide,
   fun t' h => C7_progress_spec.2.2 exC2 7 60 exC2task rfl (by decide)
     (by decide) t' h⟩

/-- C8: a new subscriber synchronously receives exactly the snapshot event
(whose payload is `getAllTasks()` at subscription time) followed by the
stats event, before anything else; the snapshot payload is a permutation
of the stored tasks ordered by non-increasing `createdAt`
(newest-first). -/
theorem C8_subscribe_snapshot (s : QMState) :
    addSSEClient s
        = [Event.queue_snapshot (getAllTasks s),
           Event.queue_stats (getStats s)]
      ∧ List.Perm (getAllTasks s) s.tasks
      ∧ (getAllTasks s).Pairwise (fun a b => b.createdAt ≤ a.createdAt) :=
  ⟨rfl, perm_sortByCreatedAtDesc s.tasks, sorted_sortByCreatedAtDesc s.tasks⟩

/-- Two registered SSE clients; the first one's `res.write` raises (closed
connection), the second is healthy. -/
def exClients : List SSEClient := [⟨1, true⟩, ⟨2, false⟩]

/-- C9 (the code violates the claim): with two subscribed clients where
the first one's write raises, the source's `broadcast` loop — which has no
error handling around `sendToClient` — propagates the error to the caller,
and the healthy second client receives nothing; with no failing client
both are written to. -/
theorem C9_broadcast_propagates :
    broadcast exClients = .error "write to closed connection"
      ∧ deliveredBeforeError exClients = []
      ∧ (∃ c ∈ exClients, c.cid = 2 ∧ c.writeFails = false)
      ∧ broadcast [⟨1, false⟩, ⟨2, false⟩] = .ok ()
      ∧ deliveredBeforeError [⟨1, false⟩, ⟨2, false⟩] = [1, 2] :=
  ⟨rfl, rfl, by decide, rfl, rfl⟩

/-- A stored task in the terminal state `completed`. -/
def exC10task : Task :=
  { id := 4, prompt := "y", state := .completed, createdAt := 0,
    startedAt := some 0, completedAt := some 1, result := some "url",
    error := none, retryCount := 0, maxRetries := 5, nextRetryAt := none,
    progress := 100, estimatedWaitTime := 0 }

/-- A manager state holding the completed task above. -/
def exC10 : QMState :=
  { tasks := [exC10task], currentlyProcessing := 0, usedIds := [4] }

/-- C10: `cancelTask` on a task in a terminal state (`completed` or
`failed`) succeeds: it returns `true`, removes the record, and emits
`task_cancelled` plus stats — cancellation is not restricted to `pending`
and `retrying`; only a `processing` task or an unknown id is rejected
with `false`. -/
theorem C10_cancel_terminal (s : QMState) (i : Nat) (t : Task)
    (hfind : findTask s i = some t)
    (hterm : t.state = TaskState.completed ∨ t.state = TaskState.failed) :
    (cancelTask s i).2.2 = true
      ∧ (∀ u ∈ (cancelTask s i).1.tasks, u.id ≠ i)
      ∧ (cancelTask s i).2.1
          = [Event.task_cancelled i,
             Event.queue_stats (getStats (cancelTask s i).1)]
      ∧ (∀ j, findTask s j = none → cancelTask s j = (s, [], false)) := by
  have hnp : ¬t.state = TaskState.processing := by
    rcases hterm with h | h <;> simp [h]
  have hcanc : cancelTask s i
      = ({ s with tasks := s.tasks.filter (fun u => !(u.id == i)) },
         [Event.task_cancelled i,
          Event.queue_stats (getStats
            { s with tasks := s.tasks.filter (fun u => !(u.id == i)) })],
         true) := by
    simp [cancelTask, hfind, hnp]
  refine ⟨by rw [hcanc], ?_, by rw [hcanc], ?_⟩
  · intro u hu
    rw [hcanc] at hu
    exact not_mem_eraseId u hu
  · intro j h
    simp [cancelTask, h]

theorem C10_cancel_terminal_witness :
    findTask exC10 4 = some exC10task
      ∧ exC10task.state = TaskState.completed
      ∧ (cancelTask exC10 4).2.2 = true
      ∧ (∀ u ∈ (cancelTask exC10 4).1.tasks, u.id ≠ 4) := by
  have h := C10_cancel_terminal exC10 4 exC10task rfl (Or.inl rfl)
  exact ⟨rfl, rfl, h.1, h.2.1⟩

end TQV
